import Mathlib

/-!
Shallow embedding of the terminal text editor `src/edit.c`.

Bytes are modelled as `Nat` (the tab byte is 9, space is 32), C `int`
fields of the editor state as `Int`, and the row buffers as Lean lists.
Each definition mirrors one C function of the source, keeping its name.
-/

namespace TextEdit

/-- `EDIT_TAB_STOP` from edit.c. -/
def EDIT_TAB_STOP : Nat := 8

/-- `enum editorKey` codes from edit.c (1000 upward). -/
def ARROW_LEFT : Int := 1000

def ARROW_RIGHT : Int := 1001

def ARROW_UP : Int := 1002

def ARROW_DOWN : Int := 1003

def DEL_KEY : Int := 1004

def HOME_KEY : Int := 1005

def END_KEY : Int := 1006

def PAGE_UP : Int := 1007

def PAGE_DOWN : Int := 1008

/-- One iteration of the loop body of `editorRowCxToRx`: on a tab
(byte 9) the column advances by `(EDIT_TAB_STOP - 1) - rx % EDIT_TAB_STOP`
and then by one more; on any other byte it advances by one. -/
def cxToRxStep (rx : Nat) (c : Nat) : Nat :=
  if c = 9 then rx + (EDIT_TAB_STOP - 1 - rx % EDIT_TAB_STOP) + 1 else rx + 1

/-- `editorRowCxToRx` from edit.c: fold the loop body over the first
`cx` bytes of the row's `chars`, starting from rendered column 0. -/
def editorRowCxToRx (chars : List Nat) (cx : Nat) : Nat :=
  (chars.take cx).foldl cxToRxStep 0

/-- One iteration of the render-building loop of `editorUpdateRow`: a tab
emits one space and then pads with spaces until the length is a multiple
of `EDIT_TAB_STOP` (together `EDIT_TAB_STOP - len % EDIT_TAB_STOP`
spaces); any other byte is copied through. -/
def renderStep (acc : List Nat) (c : Nat) : List Nat :=
  if c = 9 then acc ++ List.replicate (EDIT_TAB_STOP - acc.length % EDIT_TAB_STOP) 32
  else acc ++ [c]

/-- The `render` buffer rebuilt from `chars` by `editorUpdateRow`. -/
def editorUpdateRowRender (chars : List Nat) : List Nat :=
  chars.foldl renderStep []

/-- `erow` from edit.c; the `size`/`rsize` fields are the lengths of the
two buffers (the C code keeps them in sync at all times). -/
structure erow where
  chars : List Nat
  render : List Nat
deriving DecidableEq

def erow.size (r : erow) : Nat := r.chars.length

def erow.rsize (r : erow) : Nat := r.render.length

/-- A row whose `render` has just been recomputed by `editorUpdateRow`;
this is how `editorAppendRow` and `editorRowInsertChar` leave every row. -/
def mkRow (chars : List Nat) : erow :=
  ⟨chars, editorUpdateRowRender chars⟩

/-- `editorAppendRow` from edit.c, acting on the row list: append a row
built from the given bytes and run `editorUpdateRow` on it. -/
def editorAppendRow (rows : List erow) (s : List Nat) : List erow :=
  rows ++ [mkRow s]

/-- `editorRowInsertChar` from edit.c: clamp an out-of-range `at`
(negative or beyond `size`) to `size`, shift the tail right by one,
store the byte, and recompute `render`. -/
def editorRowInsertChar (r : erow) (a : Int) (c : Nat) : erow :=
  let a1 : Int := if a < 0 ∨ a > (r.size : Int) then (r.size : Int) else a
  let n : Nat := a1.toNat
  mkRow (r.chars.take n ++ c :: r.chars.drop n)

/-- `struct editorConfig` from edit.c (terminal bookkeeping fields
omitted); `numrows` is the length of `rows`, which the C code maintains
as an invariant of `editorAppendRow`. -/
structure editorConfig where
  cx : Int
  cy : Int
  rx : Int
  rowoff : Int
  coloff : Int
  screenrows : Int
  screencols : Int
  rows : List erow
deriving DecidableEq

def editorConfig.numrows (E : editorConfig) : Int := E.rows.length

/-- Replace the row at an index, leaving the list unchanged when the
index is out of range (the C code only ever uses in-range indices). -/
def listModify (l : List erow) (i : Nat) (f : erow → erow) : List erow :=
  l.set i (f (l.getD i (mkRow [])))

/-- `editorInsertChar` from edit.c: on the virtual last row
(`cy == numrows`) first append an empty row, then insert the byte into
row `cy` at offset `cx`, then advance `cx` by one. -/
def editorInsertChar (E : editorConfig) (c : Nat) : editorConfig :=
  let E1 := if E.cy = E.numrows then { E with rows := E.rows ++ [mkRow []] } else E
  let E2 := { E1 with rows := listModify E1.rows E1.cy.toNat (fun r => editorRowInsertChar r E1.cx c) }
  { E2 with cx := E2.cx + 1 }

/-- `editorScroll` from edit.c: recompute `rx`, then run the four
sequential offset-adjusting conditionals exactly as written. -/
def editorScroll (E : editorConfig) : editorConfig :=
  let rx : Int :=
    if E.cy < E.numrows then
      ((editorRowCxToRx (E.rows.getD E.cy.toNat (mkRow [])).chars E.cx.toNat : Nat) : Int)
    else 0
  let rowoff1 : Int := if E.cy < E.rowoff then E.cy else E.rowoff
  let rowoff2 : Int := if E.cy ≥ rowoff1 + E.screenrows then E.cy - E.screenrows + 1 else rowoff1
  let coloff1 : Int := if rx < E.coloff then rx else E.coloff
  let coloff2 : Int := if rx ≥ coloff1 + E.screencols then rx - E.screencols + 1 else coloff1
  { E with rx := rx, rowoff := rowoff2, coloff := coloff2 }

/-- `editorMoveCursor` from edit.c, including the literal `ARROW_DOWN`
bound check `E.cx < E.numrows` of the source, followed by the final
re-clamp of `cx` to the destination row's length. -/
def editorMoveCursor (E : editorConfig) (key : Int) : editorConfig :=
  let row : Option erow :=
    if E.cy ≥ E.numrows then none else some (E.rows.getD E.cy.toNat (mkRow []))
  let E1 : editorConfig :=
    if key = ARROW_LEFT then
      if E.cx ≠ 0 then { E with cx := E.cx - 1 }
      else if E.cy > 0 then
        { E with cy := E.cy - 1, cx := ((E.rows.getD (E.cy - 1).toNat (mkRow [])).size : Int) }
      else E
    else if key = ARROW_RIGHT then
      match row with
      | some r =>
        if E.cx < (r.size : Int) then { E with cx := E.cx + 1 }
        else if E.cx = (r.size : Int) then { E with cy := E.cy + 1, cx := 0 }
        else E
      | none => E
    else if key = ARROW_UP then
      if E.cy ≠ 0 then { E with cy := E.cy - 1 } else E
    else if key = ARROW_DOWN then
      if E.cx < E.numrows then { E with cy := E.cy + 1 } else E
    else E
  let rowlen : Int :=
    if E1.cy ≥ E1.numrows then 0 else ((E1.rows.getD E1.cy.toNat (mkRow [])).size : Int)
  if E1.cx > rowlen then { E1 with cx := rowlen } else E1

/-- The `while (times--)` loop of the PageUp/PageDown branch of
`editorProcessKeypress`: repeat a single-step cursor move. -/
def iterateMove (E : editorConfig) (key : Int) : Nat → editorConfig
  | 0 => E
  | n + 1 => iterateMove (editorMoveCursor E key) key n

/-- `editorProcessKeypress` from edit.c as a state transition. The
Ctrl-Q branch exits the process (no successor state) and is modelled as
the identity; it is not used by any claim. Every key the switch does
not name falls through to `editorInsertChar`. -/
def editorProcessKeypress (E : editorConfig) (c : Int) : editorConfig :=
  if c = 17 then E
  else if c = HOME_KEY then { E with cx := 0 }
  else if c = END_KEY then
    if E.cy < E.numrows then
      { E with cx := ((E.rows.getD E.cy.toNat (mkRow [])).size : Int) }
    else E
  else if c = PAGE_UP ∨ c = PAGE_DOWN then
    let E1 : editorConfig :=
      if c = PAGE_UP then { E with cy := E.rowoff }
      else
        let cy1 : Int := E.rowoff + E.screenrows - 1
        { E with cy := if cy1 > E.numrows then E.numrows else cy1 }
    iterateMove E1 (if c = PAGE_UP then ARROW_UP else ARROW_DOWN) E1.screenrows.toNat
  else if c = ARROW_UP ∨ c = ARROW_DOWN ∨ c = ARROW_LEFT ∨ c = ARROW_RIGHT then
    editorMoveCursor E c
  else editorInsertChar E c.toNat

/-- Apply a sequence of decoded key events in order. -/
def processKeys (E : editorConfig) : List Int → editorConfig
  | [] => E
  | k :: ks => processKeys (editorProcessKeypress E k) ks

/-- `initEditor` from edit.c: zeroed cursor and offsets, empty buffer;
the screen extent (already reduced by the two status lines) is a
parameter supplied by the terminal-size collaborator. -/
def initEditor (screenrows screencols : Int) : editorConfig :=
  { cx := 0, cy := 0, rx := 0, rowoff := 0, coloff := 0,
    screenrows := screenrows, screencols := screencols, rows := [] }

/-- `editorReadKey` from edit.c: the first byte is obtained by the
blocking read loop; `rest` is the list of bytes still available within
the read timeout, so a lookup past its end is a timed-out read, which
the C code answers with a literal Escape (byte 27). -/
def editorReadKey (c : Int) (rest : List Int) : Int :=
  if c = 27 then
    match rest.get? 0, rest.get? 1 with
    | some s0, some s1 =>
      if s0 = 91 then
        if 48 ≤ s1 ∧ s1 ≤ 57 then
          match rest.get? 2 with
          | some s2 =>
            if s2 = 126 then
              if s1 = 49 then HOME_KEY
              else if s1 = 51 then DEL_KEY
              else if s1 = 52 then END_KEY
              else if s1 = 53 then PAGE_UP
              else if s1 = 54 then PAGE_DOWN
              else if s1 = 55 then HOME_KEY
              else if s1 = 56 then END_KEY
              else 27
            else 27
          | none => 27
        else
          if s1 = 65 then ARROW_UP
          else if s1 = 66 then ARROW_DOWN
          else if s1 = 67 then ARROW_RIGHT
          else if s1 = 68 then ARROW_LEFT
          else if s1 = 72 then HOME_KEY
          else if s1 = 70 then END_KEY
          else 27
      else if s0 = 79 then
        if s1 = 72 then HOME_KEY
        else if s1 = 70 then END_KEY
        else 27
      else 27
    | _, _ => 27
  else c

/-- The escape-prefixed byte sequences `editorReadKey` maps to a named
key, read off the decoding table of the source (spec section 4.2):
after the escape byte, `[` followed by a letter of `A B C D H F`,
`[` followed by a remembered digit of `1 3 4 5 6 7 8` and `~`, or `O`
followed by `H` or `F`. Every other escape-prefixed input is an
unmatched sequence and must decode to a literal Escape. -/
def escSeqMapsToKey (rest : List Int) : Prop :=
  (rest.get? 0 = some 91 ∧
    (rest.get? 1 = some 65 ∨ rest.get? 1 = some 66 ∨ rest.get? 1 = some 67 ∨
      rest.get? 1 = some 68 ∨ rest.get? 1 = some 72 ∨ rest.get? 1 = some 70 ∨
      (rest.get? 2 = some 126 ∧
        (rest.get? 1 = some 49 ∨ rest.get? 1 = some 51 ∨ rest.get? 1 = some 52 ∨
          rest.get? 1 = some 53 ∨ rest.get? 1 = some 54 ∨ rest.get? 1 = some 55 ∨
          rest.get? 1 = some 56)))) ∨
  (rest.get? 0 = some 79 ∧ (rest.get? 1 = some 72 ∨ rest.get? 1 = some 70))

instance (rest : List Int) : Decidable (escSeqMapsToKey rest) := by
  unfold escSeqMapsToKey
  infer_instance

end TextEdit

namespace TextEdit

/-! ### Helper lemmas about the rendered-column scan and the render buffer -/

lemma cxToRxStep_lt (rx c : Nat) : rx < cxToRxStep rx c := by
  unfold cxToRxStep EDIT_TAB_STOP
  split <;> omega

lemma le_foldl_cxToRxStep (l : List Nat) (acc : Nat) : acc ≤ l.foldl cxToRxStep acc := by
  induction l generalizing acc with
  | nil => exact le_refl acc
  | cons c t ih =>
      simp only [List.foldl_cons]
      exact le_trans (cxToRxStep_lt acc c).le (ih _)

lemma editorRowCxToRx_le_of_le (chars : List Nat) {a b : Nat} (h : a ≤ b) :
    editorRowCxToRx chars a ≤ editorRowCxToRx chars b := by
  unfold editorRowCxToRx
  have hdecomp : chars.take b = chars.take a ++ (chars.take b).drop a := by
    conv_lhs => rw [← List.take_append_drop a (chars.take b)]
    rw [List.take_take, min_eq_left h]
  rw [hdecomp, List.foldl_append]
  exact le_foldl_cxToRxStep _ _

lemma editorRowCxToRx_succ (l : List Nat) (cx : Nat) (h : cx < l.length) :
    editorRowCxToRx l (cx + 1) = cxToRxStep (editorRowCxToRx l cx) (l.getD cx 0) := by
  unfold editorRowCxToRx
  rw [List.take_succ, List.getElem?_eq_getElem h, List.getD_eq_getElem l 0 h,
    List.foldl_append]
  rfl

lemma renderStep_length (acc : List Nat) (c : Nat) :
    (renderStep acc c).length = cxToRxStep acc.length c := by
  unfold renderStep cxToRxStep EDIT_TAB_STOP
  split
  · simp only [List.length_append, List.length_replicate]
    omega
  · simp

lemma foldl_renderStep_length (l : List Nat) (acc : List Nat) :
    (l.foldl renderStep acc).length = l.foldl cxToRxStep acc.length := by
  induction l generalizing acc with
  | nil => rfl
  | cons c t ih =>
      simp only [List.foldl_cons]
      rw [ih, renderStep_length]

lemma mkRow_rsize (chars : List Nat) :
    (mkRow chars).rsize = editorRowCxToRx chars chars.length := by
  show (chars.foldl renderStep []).length = (chars.take chars.length).foldl cxToRxStep 0
  rw [List.take_length, foldl_renderStep_length]
  rfl

lemma no_tab_foldl_renderStep (l acc : List Nat) (hacc : 9 ∉ acc) :
    9 ∉ l.foldl renderStep acc := by
  induction l generalizing acc with
  | nil => exact hacc
  | cons c t ih =>
      simp only [List.foldl_cons]
      apply ih
      unfold renderStep
      split
      · intro hmem
        rcases List.mem_append.mp hmem with h | h
        · exact hacc h
        · exact absurd (List.eq_of_mem_replicate h) (by decide)
      · rename_i hc
        intro hmem
        rcases List.mem_append.mp hmem with h | h
        · exact hacc h
        · simp only [List.mem_singleton] at h
          exact hc h.symm

lemma foldl_renderStep_no_tab (l : List Nat) (acc : List Nat) (h : 9 ∉ l) :
    l.foldl renderStep acc = acc ++ l := by
  induction l generalizing acc with
  | nil => simp
  | cons c t ih =>
      have hc : ¬c = 9 := by
        intro e
        exact h (by simp [e])
      simp only [List.foldl_cons]
      rw [show renderStep acc c = acc ++ [c] from by unfold renderStep; rw [if_neg hc],
        ih _ (fun hm => h (List.mem_cons_of_mem _ hm))]
      simp

lemma foldl_cxToRxStep_no_tab (l : List Nat) (n : Nat) (h : 9 ∉ l) :
    l.foldl cxToRxStep n = n + l.length := by
  induction l generalizing n with
  | nil => simp
  | cons c t ih =>
      have hc : ¬c = 9 := by
        intro e
        exact h (by simp [e])
      simp only [List.foldl_cons]
      rw [show cxToRxStep n c = n + 1 from by unfold cxToRxStep; rw [if_neg hc],
        ih _ (fun hm => h (List.mem_cons_of_mem _ hm))]
      simp only [List.length_cons]
      omega

/-! ### Claim C7 -/

/-- C7: `editorRowCxToRx` is non-decreasing in `cx`; under the tab stop
of 8 a tab seen at rendered column 0 advances the column to 8, one at
column 5 advances it to 8, one at column 8 advances it to 16 (in
general, to the next multiple of 8), and every non-tab byte advances
the rendered column by exactly one. -/
theorem editorRowCxToRx_monotone_and_tab (chars : List Nat) (a b : Nat) (hab : a ≤ b) :
    editorRowCxToRx chars a ≤ editorRowCxToRx chars b ∧
    editorRowCxToRx [9] 1 = 8 ∧
    editorRowCxToRx [97, 97, 97, 97, 97, 9] 6 = 8 ∧
    editorRowCxToRx [97, 97, 97, 97, 97, 97, 97, 97, 9] 9 = 16 ∧
    (∀ (l : List Nat) (cx : Nat), cx < l.length → l.getD cx 0 = 9 →
      editorRowCxToRx l (cx + 1) =
        editorRowCxToRx l cx + (EDIT_TAB_STOP - editorRowCxToRx l cx % EDIT_TAB_STOP)) ∧
    (∀ (l : List Nat) (cx : Nat), cx < l.length → l.getD cx 0 ≠ 9 →
      editorRowCxToRx l (cx + 1) = editorRowCxToRx l cx + 1) := by
  refine ⟨editorRowCxToRx_le_of_le chars hab, by decide, by decide, by decide, ?_, ?_⟩
  · intro l cx h h9
    rw [editorRowCxToRx_succ l cx h, h9]
    unfold cxToRxStep EDIT_TAB_STOP
    rw [if_pos rfl]
    omega
  · intro l cx h h9
    rw [editorRowCxToRx_succ l cx h]
    unfold cxToRxStep
    rw [if_neg h9]

/-- Witness for C7: monotonicity applied at the concrete row `[9]`
with `0 ≤ 1`. -/
theorem editorRowCxToRx_monotone_and_tab_witness :
    editorRowCxToRx [9] 0 ≤ editorRowCxToRx [9] 1 :=
  (editorRowCxToRx_monotone_and_tab [9] 0 1 (by decide)).1

/-! ### Claim C8 -/

/-- C8: for a row whose `chars` contain no tab byte, `editorUpdateRow`
makes `render` equal to `chars` (so `rsize = size`), and
`editorRowCxToRx` is the identity on every `cx` in `[0, size]`. -/
theorem no_tab_render_eq_chars (chars : List Nat) (cx : Nat)
    (h9 : 9 ∉ chars) (hcx : cx ≤ chars.length) :
    (mkRow chars).render = chars ∧
    (mkRow chars).rsize = (mkRow chars).size ∧
    editorRowCxToRx chars cx = cx := by
  have hrender : (mkRow chars).render = chars := by
    show chars.foldl renderStep [] = chars
    rw [foldl_renderStep_no_tab chars [] h9]
    simp
  refine ⟨hrender, ?_, ?_⟩
  · show (mkRow chars).render.length = chars.length
    rw [hrender]
  · show (chars.take cx).foldl cxToRxStep 0 = cx
    have h9t : 9 ∉ chars.take cx := fun hm => h9 (List.take_subset cx chars hm)
    rw [foldl_cxToRxStep_no_tab _ _ h9t, List.length_take]
    omega

/-- Witness for C8 at the concrete tab-free row `[97, 98]` with `cx = 2`. -/
theorem no_tab_render_eq_chars_witness :
    (mkRow [97, 98]).render = [97, 98] ∧
    (mkRow [97, 98]).rsize = (mkRow [97, 98]).size ∧
    editorRowCxToRx [97, 98] 2 = 2 :=
  no_tab_render_eq_chars [97, 98] 2 (by decide) (by decide)

end TextEdit

namespace TextEdit

/-! ### Claim C4 -/

lemma editorRowInsertChar_chars_of_le (r : erow) (k : Nat) (c : Nat) (hk : k ≤ r.size) :
    (editorRowInsertChar r (k : Int) c).chars = r.chars.take k ++ c :: r.chars.drop k := by
  have hcond : ¬((k : Int) < 0 ∨ (k : Int) > (r.size : Int)) := by
    push_neg
    exact ⟨Int.natCast_nonneg k, by exact_mod_cast hk⟩
  simp only [editorRowInsertChar, mkRow]
  rw [if_neg hcond, Int.toNat_natCast]

/-- C4: inserting byte `c` at an in-range offset `k` of a row of size
`n` gives a row of size `n + 1` whose bytes `[0, k)` are unchanged,
whose byte at `k` is `c`, and whose bytes `[k+1, n+1)` are the original
bytes `[k, n)`. -/
theorem editorRowInsertChar_preserves_bytes (r : erow) (k : Nat) (c : Nat) (hk : k ≤ r.size) :
    (editorRowInsertChar r (k : Int) c).size = r.size + 1 ∧
    (∀ i, i < k → (editorRowInsertChar r (k : Int) c).chars.getD i 0 = r.chars.getD i 0) ∧
    (editorRowInsertChar r (k : Int) c).chars.getD k 0 = c ∧
    (∀ i, k ≤ i → i < r.size →
      (editorRowInsertChar r (k : Int) c).chars.getD (i + 1) 0 = r.chars.getD i 0) := by
  have hch := editorRowInsertChar_chars_of_le r k c hk
  have hlen : (r.chars.take k).length = k := by
    rw [List.length_take]
    exact min_eq_left hk
  refine ⟨?_, ?_, ?_, ?_⟩
  · show (editorRowInsertChar r (k : Int) c).chars.length = r.chars.length + 1
    rw [hch]
    simp only [List.length_append, List.length_cons, List.length_drop, hlen]
    have : k ≤ r.chars.length := hk
    omega
  · intro i hi
    rw [hch, List.getD_append _ _ _ i (by rw [hlen]; exact hi)]
    rw [List.getD_eq_getElem?_getD, List.getD_eq_getElem?_getD, List.getElem?_take]
    rw [if_pos hi]
  · rw [hch, List.getD_append_right _ _ _ _ (le_of_eq hlen)]
    rw [hlen, Nat.sub_self]
    rfl
  · intro i hki hi
    rw [hch, List.getD_append_right _ _ _ _ (by rw [hlen]; omega)]
    rw [hlen]
    have h1 : i + 1 - k = (i - k) + 1 := by omega
    rw [h1, List.getD_cons_succ]
    rw [List.getD_eq_getElem?_getD, List.getD_eq_getElem?_getD, List.getElem?_drop]
    have h2 : k + (i - k) = i := by omega
    rw [h2]

/-- Witness for C4: insert byte 30 at offset 1 of the row `[10, 20]`. -/
theorem editorRowInsertChar_preserves_bytes_witness :
    (editorRowInsertChar (mkRow [10, 20]) ((1 : Nat) : Int) 30).size = (mkRow [10, 20]).size + 1 ∧
    (editorRowInsertChar (mkRow [10, 20]) ((1 : Nat) : Int) 30).chars.getD 1 0 = 30 :=
  ⟨(editorRowInsertChar_preserves_bytes (mkRow [10, 20]) 1 30 (by decide)).1,
    (editorRowInsertChar_preserves_bytes (mkRow [10, 20]) 1 30 (by decide)).2.2.1⟩

/-! ### Claim C10 -/

/-- C10: `editorRowInsertChar` clamps every out-of-range offset —
negative as well as greater than `size` — to the end of the row, so the
byte is appended (a negative offset is not clamped to 0). -/
theorem editorRowInsertChar_clamps_to_end (r : erow) (a : Int) (c : Nat)
    (h : a < 0 ∨ a > (r.size : Int)) :
    (editorRowInsertChar r a c).chars = r.chars ++ [c] := by
  simp only [editorRowInsertChar, mkRow]
  rw [if_pos h, Int.toNat_natCast]
  show r.chars.take r.chars.length ++ c :: r.chars.drop r.chars.length = r.chars ++ [c]
  rw [List.take_length, List.drop_length]

/-- Witness for C10: inserting at offset `-1` of the row `[1]` appends. -/
theorem editorRowInsertChar_clamps_to_end_witness :
    (editorRowInsertChar (mkRow [1]) (-1) 2).chars = (mkRow [1]).chars ++ [2] :=
  editorRowInsertChar_clamps_to_end (mkRow [1]) (-1) 2 (by decide)

/-! ### Claim C5 -/

lemma listModify_append_last (l : List erow) (x : erow) (f : erow → erow) :
    listModify (l ++ [x]) l.length f = l ++ [f x] := by
  induction l with
  | nil => rfl
  | cons y t ih =>
      simp only [List.cons_append, List.length_cons, listModify, List.getD_cons_succ,
        List.set_cons_succ]
      have h := ih
      simp only [listModify] at h
      rw [h]

/-- C5: when the insert-character action fires at `cy = numrows`, a new
empty row is appended first (`numrows` grows by one) and the byte is
inserted into that row; in every (in-range) case the action advances
`cx` by exactly one. -/
theorem editorInsertChar_spec (E : editorConfig) (c : Nat)
    (h0 : 0 ≤ E.cy) (h1 : E.cy ≤ E.numrows) :
    (editorInsertChar E c).cx = E.cx + 1 ∧
    (E.cy = E.numrows →
      (editorInsertChar E c).numrows = E.numrows + 1 ∧
      (editorInsertChar E c).rows = E.rows ++ [editorRowInsertChar (mkRow []) E.cx c]) := by
  constructor
  · simp only [editorInsertChar]
    split <;> rfl
  · intro hcy
    have hrows : (editorInsertChar E c).rows
        = E.rows ++ [editorRowInsertChar (mkRow []) E.cx c] := by
      simp only [editorInsertChar, if_pos hcy]
      have hn : E.cy.toNat = E.rows.length := by
        rw [hcy]
        simp [editorConfig.numrows]
      rw [hn]
      exact listModify_append_last _ _ _
    refine ⟨?_, hrows⟩
    show ((editorInsertChar E c).rows.length : Int) = (E.rows.length : Int) + 1
    rw [hrows]
    simp

/-- Witness for C5: inserting byte 97 into the freshly initialised
editor, whose cursor sits on the virtual row `cy = numrows = 0`. -/
theorem editorInsertChar_spec_witness :
    (editorInsertChar (initEditor 24 80) 97).cx = (initEditor 24 80).cx + 1 ∧
    ((initEditor 24 80).cy = (initEditor 24 80).numrows →
      (editorInsertChar (initEditor 24 80) 97).numrows = (initEditor 24 80).numrows + 1 ∧
      (editorInsertChar (initEditor 24 80) 97).rows =
        (initEditor 24 80).rows ++ [editorRowInsertChar (mkRow []) (initEditor 24 80).cx 97]) :=
  editorInsertChar_spec (initEditor 24 80) 97 (by decide) (by decide)

end TextEdit

namespace TextEdit

/-! ### Claim C3 -/

lemma scroll_clamp (x off sz : Int) (hsz : 1 ≤ sz) (hx : 0 ≤ x) (hoff : 0 ≤ off) :
    (if x ≥ (if x < off then x else off) + sz then x - sz + 1
      else (if x < off then x else off)) ≤ x ∧
    x < (if x ≥ (if x < off then x else off) + sz then x - sz + 1
      else (if x < off then x else off)) + sz ∧
    0 ≤ (if x ≥ (if x < off then x else off) + sz then x - sz + 1
      else (if x < off then x else off)) := by
  split_ifs <;> omega

/-- C3: after `editorScroll` on a state with a positive screen extent,
non-negative offsets and a non-negative `cy`, the rendered cursor
position lies inside the viewport: `rowoff ≤ cy < rowoff + screenrows`
and `coloff ≤ rx < coloff + screencols`, and both offsets stay
non-negative. -/
theorem editorScroll_contains_cursor (E : editorConfig)
    (hsr : 1 ≤ E.screenrows) (hsc : 1 ≤ E.screencols)
    (hro : 0 ≤ E.rowoff) (hco : 0 ≤ E.coloff) (hcy : 0 ≤ E.cy) :
    (editorScroll E).rowoff ≤ E.cy ∧
    E.cy < (editorScroll E).rowoff + E.screenrows ∧
    (editorScroll E).coloff ≤ (editorScroll E).rx ∧
    (editorScroll E).rx < (editorScroll E).coloff + E.screencols ∧
    0 ≤ (editorScroll E).rowoff ∧
    0 ≤ (editorScroll E).coloff := by
  have hrx0 : 0 ≤ (editorScroll E).rx := by
    show 0 ≤ (if E.cy < E.numrows then
      ((editorRowCxToRx (E.rows.getD E.cy.toNat (mkRow [])).chars E.cx.toNat : Nat) : Int)
      else 0)
    split
    · exact Int.natCast_nonneg _
    · exact le_refl 0
  have h1 := scroll_clamp E.cy E.rowoff E.screenrows hsr hcy hro
  have h2 := scroll_clamp ((editorScroll E).rx) E.coloff E.screencols hsc hrx0 hco
  exact ⟨h1.1, h1.2.1, h2.1, h2.2.1, h1.2.2, h2.2.2⟩

/-- Witness for C3: scrolling the freshly initialised editor with a
1-by-1 screen keeps the cursor in the viewport. -/
theorem editorScroll_contains_cursor_witness :
    (editorScroll (initEditor 1 1)).rowoff ≤ (initEditor 1 1).cy ∧
    (initEditor 1 1).cy < (editorScroll (initEditor 1 1)).rowoff + (initEditor 1 1).screenrows ∧
    (editorScroll (initEditor 1 1)).coloff ≤ (editorScroll (initEditor 1 1)).rx ∧
    (editorScroll (initEditor 1 1)).rx
      < (editorScroll (initEditor 1 1)).coloff + (initEditor 1 1).screencols ∧
    0 ≤ (editorScroll (initEditor 1 1)).rowoff ∧
    0 ≤ (editorScroll (initEditor 1 1)).coloff :=
  editorScroll_contains_cursor (initEditor 1 1) (by decide) (by decide) (by decide)
    (by decide) (by decide)

/-! ### Claim C6 -/

set_option maxHeartbeats 1000000 in
/-- C6: the key decoder maps `ESC [ A` to ArrowUp, `ESC [ 3 ~` to
Delete, `ESC [ H` to Home; with a remembered digit before `~` it maps
1 and 7 to Home, 3 to Delete, 4 and 8 to End, 5 to PageUp, 6 to
PageDown; every escape-prefixed input decodes to either a literal
Escape (27) or one of the named keys, never an error or a stray byte;
and every escape-prefixed input that matches no known pattern of the
decoding table (`escSeqMapsToKey`) — including a lone escape byte with
no follow-up available within the read timeout — decodes to exactly a
literal Escape. -/
theorem editorReadKey_decoding_table :
    editorReadKey 27 [91, 65] = ARROW_UP ∧
    editorReadKey 27 [91, 51, 126] = DEL_KEY ∧
    editorReadKey 27 [91, 72] = HOME_KEY ∧
    editorReadKey 27 [91, 49, 126] = HOME_KEY ∧
    editorReadKey 27 [91, 55, 126] = HOME_KEY ∧
    editorReadKey 27 [91, 52, 126] = END_KEY ∧
    editorReadKey 27 [91, 56, 126] = END_KEY ∧
    editorReadKey 27 [91, 53, 126] = PAGE_UP ∧
    editorReadKey 27 [91, 54, 126] = PAGE_DOWN ∧
    editorReadKey 27 [] = 27 ∧
    (∀ rest : List Int,
      editorReadKey 27 rest = 27 ∨
        editorReadKey 27 rest ∈
          [ARROW_LEFT, ARROW_RIGHT, ARROW_UP, ARROW_DOWN, DEL_KEY,
            HOME_KEY, END_KEY, PAGE_UP, PAGE_DOWN]) ∧
    (∀ rest : List Int, ¬ escSeqMapsToKey rest → editorReadKey 27 rest = 27) := by
  refine ⟨by decide, by decide, by decide, by decide, by decide, by decide, by decide,
    by decide, by decide, by decide, ?_, ?_⟩
  · intro rest
    match rest with
    | [] => exact Or.inl (by decide)
    | [s0] =>
        unfold editorReadKey
        rw [if_pos rfl]
        simp only [List.get?]
        exact Or.inl trivial
    | s0 :: s1 :: [] =>
        unfold editorReadKey
        rw [if_pos rfl]
        simp only [List.get?]
        split_ifs <;> decide
    | s0 :: s1 :: s2 :: t =>
        unfold editorReadKey
        rw [if_pos rfl]
        simp only [List.get?]
        split_ifs <;> decide
  · intro rest h
    rcases rest with _ | ⟨s0, _ | ⟨s1, _ | ⟨s2, t⟩⟩⟩
    · decide
    · unfold editorReadKey
      rw [if_pos rfl]
      simp only [List.get?]
    · unfold editorReadKey
      rw [if_pos rfl]
      simp only [List.get?]
      split_ifs <;> first | rfl | simp_all [escSeqMapsToKey, List.get?]
    · unfold editorReadKey
      rw [if_pos rfl]
      simp only [List.get?]
      split_ifs <;> first | rfl | simp_all [escSeqMapsToKey, List.get?]

/-- Witness for C6: the unmatched sequence `ESC [ Z` decodes to a
literal Escape. -/
theorem editorReadKey_decoding_table_witness :
    editorReadKey 27 [91, 90] = 27 :=
  editorReadKey_decoding_table.2.2.2.2.2.2.2.2.2.2.2 [91, 90] (by decide)

/-! ### Claim C9 -/

/-- C9: every row as produced by `editorAppendRow` (a fresh `mkRow`)
or by `editorRowInsertChar` — i.e. right after `editorUpdateRow` ran —
has a tab-free `render`, has `rsize` equal to `editorRowCxToRx` at
`size`, and hence maps every `cx` in `[0, size]` to a rendered column
in `[0, rsize]`. -/
theorem updated_row_render_invariant (s : List Nat) (r0 : erow) (a : Int) (c : Nat) (cx : Nat) :
    (9 ∉ (mkRow s).render ∧
      (mkRow s).rsize = editorRowCxToRx (mkRow s).chars (mkRow s).size ∧
      (cx ≤ (mkRow s).size → editorRowCxToRx (mkRow s).chars cx ≤ (mkRow s).rsize)) ∧
    (9 ∉ (editorRowInsertChar r0 a c).render ∧
      (editorRowInsertChar r0 a c).rsize =
        editorRowCxToRx (editorRowInsertChar r0 a c).chars (editorRowInsertChar r0 a c).size ∧
      (cx ≤ (editorRowInsertChar r0 a c).size →
        editorRowCxToRx (editorRowInsertChar r0 a c).chars cx
          ≤ (editorRowInsertChar r0 a c).rsize)) := by
  have key : ∀ t : List Nat,
      9 ∉ (mkRow t).render ∧
      (mkRow t).rsize = editorRowCxToRx t t.length ∧
      (cx ≤ t.length → editorRowCxToRx t cx ≤ (mkRow t).rsize) := by
    intro t
    refine ⟨no_tab_foldl_renderStep t [] (by simp), mkRow_rsize t, ?_⟩
    intro hcx
    rw [mkRow_rsize]
    exact editorRowCxToRx_le_of_le t hcx
  exact ⟨key s, key _⟩

/-- Witness for C9 at the one-tab row `[9]` with `cx = 1`. -/
theorem updated_row_render_invariant_witness :
    editorRowCxToRx (mkRow [9]).chars 1 ≤ (mkRow [9]).rsize :=
  ((updated_row_render_invariant [9] (mkRow []) 0 97 1).1).2.2 (by decide)

/-! ### Claim C1 -/

/-- C1 fails on the code: from the initial empty editor, the key
sequence (insert byte 97, ArrowRight, ArrowDown) leaves the cursor at
`cy = 2` while `numrows = 1`, because the ArrowDown branch of
`editorMoveCursor` compares `cx < numrows` instead of `cy < numrows`;
the claimed invariant `cy ≤ numrows` does not hold for all reachable
states. -/
theorem cursor_invariant_violated_by_arrow_down :
    (processKeys (initEditor 24 80) [97, ARROW_RIGHT, ARROW_DOWN]).cy = 2 ∧
    (processKeys (initEditor 24 80) [97, ARROW_RIGHT, ARROW_DOWN]).numrows = 1 := by
  decide

/-! ### Claim C2 -/

/-- C2 fails on the code: in a state with one row and the cursor on
the virtual last row (`cy = numrows = 1`, `cx = 0`), a single
ArrowDown increments `cy` to 2 instead of leaving it unchanged,
because the bound check of the ArrowDown branch reads `cx < numrows`. -/
theorem arrow_down_at_virtual_row_increments_cy :
    (editorMoveCursor
      { cx := 0, cy := 1, rx := 0, rowoff := 0, coloff := 0,
        screenrows := 24, screencols := 80, rows := [mkRow [97]] }
      ARROW_DOWN).cy = 2 ∧
    ({ cx := 0, cy := 1, rx := 0, rowoff := 0, coloff := 0,
        screenrows := 24, screencols := 80, rows := [mkRow [97]] } : editorConfig).cy =
      ({ cx := 0, cy := 1, rx := 0, rowoff := 0, coloff := 0,
          screenrows := 24, screencols := 80, rows := [mkRow [97]] } : editorConfig).numrows := by
  decide

end TextEdit
